import Mathlib

/-!
Verification development for the `calculus` repository (engine crate).

The engine's `Expression<I>` type (src/engine/src/expression.rs) is embedded
as a mutual inductive (`Expression` together with `ExpressionList`, the
shallow embedding of `Vec<Expression<I>>`).  `BigInt` is embedded as `Int`
(both are arbitrary precision, and `BigInt` division truncates toward zero,
which is `Int.tdiv`).  Rust panics are modeled by `Option.none`: `reduce`
returns an `Option` because the source can panic (indexing the empty digit
vector of `BigInt::ZERO`, and `BigInt` division by a zero gcd), while
`differentiate` is total and returns a plain tree, exactly like the source.
-/

mutual

/-- The engine's algebraic expression tree `Expression<I>`. -/
inductive Expression (I : Type) where
  /-- Addition of terms (`Sum(Vec<Expression>)`). -/
  | Sum : ExpressionList I → Expression I
  /-- Multiplication of terms (`Product(Vec<Expression>)`). -/
  | Product : ExpressionList I → Expression I
  /-- Division of a term by another (`Quotient(Box<(_, _)>)`). -/
  | Quotient : Expression I → Expression I → Expression I
  /-- Exponentiation (`Power(Box<(base, exponent)>)`). -/
  | Power : Expression I → Expression I → Expression I
  /-- `e` raised to a term (`Exponential(Box<Expression>)`). -/
  | Exponential : Expression I → Expression I
  /-- Natural logarithm of a term (`Logarithm(Box<Expression>)`). -/
  | Logarithm : Expression I → Expression I
  /-- A variable identified by an `I` (`Variable(I)`). -/
  | Variable : I → Expression I
  /-- An arbitrary-precision integer literal (`Integer(BigInt)`). -/
  | Integer : Int → Expression I
  deriving DecidableEq

/-- The child sequence of a `Sum`/`Product` node (`Vec<Expression<I>>`). -/
inductive ExpressionList (I : Type) where
  | nil : ExpressionList I
  | cons : Expression I → ExpressionList I → ExpressionList I
  deriving DecidableEq

end

namespace ExpressionList

/-- Concatenation of child sequences (`Vec` extension / push). -/
def append {I : Type} : ExpressionList I → ExpressionList I → ExpressionList I
  | .nil, ys => ys
  | .cons x xs, ys => .cons x (append xs ys)

/-- Build an `ExpressionList` from a Lean `List` (for readable statements). -/
def ofList {I : Type} : List (Expression I) → ExpressionList I
  | [] => .nil
  | x :: xs => .cons x (ofList xs)

/-- Number of children. -/
def length {I : Type} : ExpressionList I → Nat
  | .nil => 0
  | .cons _ xs => length xs + 1

end ExpressionList

namespace Expression

/-- The loop in `reduce`'s `Sum` arm that accumulates every `Integer` child
into one running sum and keeps the remaining children in original relative
order (the accumulated integer is appended at the end by the caller). -/
def sumAccumulate {I : Type} : ExpressionList I → Int × ExpressionList I
  | .nil => (0, .nil)
  | .cons (Integer n) rest =>
      let (s, others) := sumAccumulate rest
      (n + s, others)
  | .cons t rest =>
      let (s, others) := sumAccumulate rest
      (s, .cons t others)

/-- The loop in `reduce`'s `Product` arm that accumulates every `Integer`
child into one running product, keeping the other children in order. -/
def productAccumulate {I : Type} : ExpressionList I → Int × ExpressionList I
  | .nil => (1, .nil)
  | .cons (Integer n) rest =>
      let (p, others) := productAccumulate rest
      (n * p, others)
  | .cons t rest =>
      let (p, others) := productAccumulate rest
      (p, .cons t others)

/-- `u32::MAX`, the largest machine-sized exponent `reduce` will fold. -/
def u32Max : Int := 4294967295

/-- The `match` on the flattened child list in `reduce`'s `Sum` arm: a
single child is returned unwrapped, an empty list becomes `Integer(0)`,
otherwise the `Integer` children are combined into one literal that is
appended at the end when nonzero. -/
def sumCombine {I : Type} : ExpressionList I → Expression I
  -- remove unnecessary `Sum` from single term
  | .cons t .nil => t
  -- convert empty `Sum` to `0`
  | .nil => Integer 0
  -- reduce other `Sum`s
  | flattened =>
      let (integerSum, otherTerms) := sumAccumulate flattened
      if integerSum = 0 then
        match otherTerms with
        | .nil => Integer 0
        | otherTerms => Sum otherTerms
      else Sum (otherTerms.append (.cons (Integer integerSum) .nil))

/-- The `match` on the flattened child list in `reduce`'s `Product` arm: a
single child is returned unwrapped, an empty list becomes `Integer(0)` (the
source's comment and code both say `0`), a zero integer product annihilates
the node, and a literal product other than `1` is appended at the end. -/
def productCombine {I : Type} : ExpressionList I → Expression I
  -- remove unnecessary `Product` from single term
  | .cons t .nil => t
  -- convert empty `Product` to `0`
  | .nil => Integer 0
  -- reduce other `Product`s
  | flattened =>
      let (integerProduct, otherTerms) := productAccumulate flattened
      if integerProduct = 0 then Integer 0
      else if integerProduct ≠ 1 then
        Product (otherTerms.append (.cons (Integer integerProduct) .nil))
      else Product otherTerms

/-- The `match` on the reduced operands of a `Quotient`: an integer
fraction is put in lowest terms (a denominator of `1` collapsing to a bare
`Integer`); `BigInt` division truncates toward zero (`Int.tdiv`) and
panics (`none`) when the gcd is zero, i.e. on `0 / 0`. -/
def combineQuotient {I : Type} : Expression I → Expression I → Option (Expression I)
  -- reduce fractions
  | Integer numerator, Integer denominator =>
      let g : Int := Int.gcd numerator denominator
      -- `numerator / &gcd` panics in Rust when the gcd is zero
      if g = 0 then none
      else
        let numerator' : Int := numerator.tdiv g
        let denominator' : Int := denominator.tdiv g
        if denominator' = 1 then some (Integer numerator')
        else some (Quotient (Integer numerator') (Integer denominator'))
  | dividend, divisor => some (Quotient dividend divisor)

/-- The `match` on the reduced operands of a `Power`: folded to a literal
when base and exponent are literal integers with `0 <= exponent <= u32::MAX`
— except that the source's `to_u32_digits().1[0]` indexes the empty digit
vector of `BigInt::ZERO` and panics (`none`) when the exponent is zero. -/
def combinePower {I : Type} : Expression I → Expression I → Option (Expression I)
  | Integer baseInt, Integer exponentInt =>
      if exponentInt ≤ u32Max ∧ 0 ≤ exponentInt then
        if exponentInt = 0 then none
        else some (Integer (baseInt ^ exponentInt.toNat))
      else some (Power (Integer baseInt) (Integer exponentInt))
  | base, exponent => some (Power base exponent)

mutual

/-- `Expression::reduce` from src/engine/src/expression.rs, with Rust panics
modeled as `none` (see `combineQuotient` and `combinePower` for the two
panic sites). -/
def reduce {I : Type} : Expression I → Option (Expression I)
  | Sum terms => do pure (sumCombine (← sumFlatten terms))
  | Product factors => do pure (productCombine (← productFlatten factors))
  | Quotient a b => do combineQuotient (← reduce a) (← reduce b)
  | Power a b => do combinePower (← reduce a) (← reduce b)
  -- `other => other`: Exponential, Logarithm, Variable and Integer nodes are
  -- returned unchanged, with no recursion into operands
  | Exponential t => some (Exponential t)
  | Logarithm t => some (Logarithm t)
  | Variable id => some (Variable id)
  | Integer n => some (Integer n)

/-- The `flat_map` in `reduce`'s `Sum` arm: a direct `Sum` child is inlined
(its children reduced), any other child is reduced in place. -/
def sumFlatten {I : Type} : ExpressionList I → Option (ExpressionList I)
  | .nil => pure .nil
  | .cons (Sum ts) rest => do
      pure (ExpressionList.append (← reduceEach ts) (← sumFlatten rest))
  | .cons t rest => do
      pure (.cons (← reduce t) (← sumFlatten rest))

/-- The `flat_map` in `reduce`'s `Product` arm. -/
def productFlatten {I : Type} : ExpressionList I → Option (ExpressionList I)
  | .nil => pure .nil
  | .cons (Product ts) rest => do
      pure (ExpressionList.append (← reduceEach ts) (← productFlatten rest))
  | .cons t rest => do
      pure (.cons (← reduce t) (← productFlatten rest))

/-- Reduce every element of a child sequence (the inner `map(reduce)`). -/
def reduceEach {I : Type} : ExpressionList I → Option (ExpressionList I)
  | .nil => pure .nil
  | .cons t rest => do pure (.cons (← reduce t) (← reduceEach rest))

end

end Expression


namespace Expression

/-- The generalized product rule's summand builder: walking the factor list
with the already-visited prefix `pre`, each step emits
`Product(d(factor) :: pre ++ rest)` — the factor's derivative first, then the
other factors in their original relative order, exactly as the source pushes
`factor.differentiate(variable)` and then every `factors[index]` with
`index != factor_index`.  The second list carries the derivatives of the
remaining factors (computed by `differentiateEach`). -/
def productRuleSummands {I : Type} (pre : ExpressionList I) :
    ExpressionList I → ExpressionList I → ExpressionList I
  | .cons f fs, .cons df dfs =>
      .cons (Product (.cons df (pre.append fs)))
        (productRuleSummands (pre.append (.cons f .nil)) fs dfs)
  | _, _ => .nil

mutual

/-- `Expression::differentiate` from src/engine/src/expression.rs.  Total,
like the source (every case of the tagged union is handled; no panics). -/
def differentiate {I : Type} [DecidableEq I] : Expression I → I → Expression I
  | Variable id, v =>
      -- identity rule / variable rule
      if id = v then Integer 1 else Integer 0
  -- constant rule
  | Integer _, _ => Integer 0
  -- sum rule
  | Sum terms, v => Sum (differentiateEach terms v)
  -- product rule
  | Product factors, v =>
      Sum (productRuleSummands .nil factors (differentiateEach factors v))
  -- quotient rule (note: the source has no `Integer(-1)` negation factor)
  | Quotient a b, v =>
      Quotient
        (Sum (.cons (Product (.cons (differentiate a v) (.cons b .nil)))
          (.cons (Product (.cons a (.cons (differentiate b v) .nil))) .nil)))
        (Product (.cons b (.cons b .nil)))
  -- power rules
  | Power (Integer base) exponent, v =>
      -- known base shortcut
      Product (.cons (Power (Integer base) exponent)
        (.cons (Logarithm (Integer base))
          (.cons (differentiate exponent v) .nil)))
  | Power base (Integer exponent), v =>
      -- known exponent shortcut
      if exponent = 0 then Integer 0
      else if exponent = 1 then differentiate base v
      else
        Product (.cons (Integer exponent)
          (.cons (Power base (Integer (exponent - 1)))
            (.cons (differentiate base v) .nil)))
  | Power base exponent, v =>
      -- general power rule
      Product (.cons (Power base exponent)
        (.cons (Sum (.cons (Product (.cons (differentiate exponent v)
            (.cons (Logarithm base) .nil)))
          (.cons (Product (.cons exponent
            (.cons (Quotient (differentiate base v) base) .nil))) .nil)))
          .nil))
  -- exponential rule
  | Exponential t, v =>
      Product (.cons (Exponential t) (.cons (differentiate t v) .nil))
  -- logarithm rule
  | Logarithm t, v => Quotient (differentiate t v) t

/-- Differentiate every element of a child sequence (the `map` in the sum
rule, and the per-factor derivatives of the product rule). -/
def differentiateEach {I : Type} [DecidableEq I] :
    ExpressionList I → I → ExpressionList I
  | .nil, _ => .nil
  | .cons t rest, v =>
      .cons (differentiate t v) (differentiateEach rest v)

end

end Expression


/-- The engine's `Namespace` (src/engine/src/namespace.rs): a `Vec` of the
interned names and a name → index map (its `HashMap` is embedded as an
association list; keys are inserted at most once, so lookup agrees). -/
structure Namespace where
  vars : List String
  identifiers : List (String × Nat)
  deriving DecidableEq

namespace Namespace

/-- A fresh `Namespace` (`Namespace::new`). -/
def new : Namespace := ⟨[], []⟩

mutual

/-- `Namespace::intern` from src/engine/src/namespace.rs: converts an
`Expression<String>` into an `Expression<usize>` while storing the names.
The source's `Logarithm` arm constructs an `Exponential` node, and that is
kept faithfully here. -/
def intern (ns : Namespace) :
    Expression String → Namespace × Expression Nat
  | .Sum terms =>
      let (ns', terms') := internEach ns terms
      (ns', .Sum terms')
  | .Product factors =>
      let (ns', factors') := internEach ns factors
      (ns', .Product factors')
  | .Quotient a b =>
      let (ns', a') := intern ns a
      let (ns'', b') := intern ns' b
      (ns'', .Quotient a' b')
  | .Power a b =>
      let (ns', a') := intern ns a
      let (ns'', b') := intern ns' b
      (ns'', .Power a' b')
  | .Exponential t =>
      let (ns', t') := intern ns t
      (ns', .Exponential t')
  | .Logarithm t =>
      -- the source builds `Exponential`, not `Logarithm`, in this arm
      let (ns', t') := intern ns t
      (ns', .Exponential t')
  | .Variable name =>
      match ns.identifiers.lookup name with
      | some id => (ns, .Variable id)
      | none =>
          let id := ns.vars.length
          (⟨ns.vars ++ [name], (name, id) :: ns.identifiers⟩, .Variable id)
  | .Integer n => (ns, .Integer n)

/-- Interning a child sequence left to right, threading the table. -/
def internEach (ns : Namespace) :
    ExpressionList String → Namespace × ExpressionList Nat
  | .nil => (ns, .nil)
  | .cons t rest =>
      let (ns', t') := intern ns t
      let (ns'', rest') := internEach ns' rest
      (ns'', .cons t' rest')

end

end Namespace


/-- The floating-point operations `Expression::evaluate` performs on `f64`,
abstracted over the value carrier: `evaluate` below is faithful to the
source's control flow for any interpretation of these operations, so
properties proved for all interpretations hold in particular for IEEE
doubles. -/
structure FloatOps (α : Type) where
  /-- `0.0`, the running total a `Sum` starts from. -/
  zero : α
  /-- `1.0`, the running total a `Product` starts from. -/
  one : α
  /-- `f64::consts::E`. -/
  euler : α
  /-- `*a += b`. -/
  add : α → α → α
  /-- `*a *= b`. -/
  mul : α → α → α
  /-- `a / b`. -/
  div : α → α → α
  /-- `a.powf(b)`. -/
  pow : α → α → α
  /-- `value.ln()`. -/
  ln : α → α
  /-- `integer.to_f64().unwrap_or(f64::NAN)`. -/
  ofInt : Int → α

namespace Expression

mutual

/-- `Expression::evaluate` from src/engine/src/expression.rs: substitutes the
sample vector for the designated variable and computes elementwise; the
trailing `_ => Err(())` arm (reached exactly by a `Variable` whose identity
differs from the designated one) is `none`. -/
def evaluate {I α : Type} [DecidableEq I] (ops : FloatOps α) :
    Expression I → I → List α → Option (List α)
  | Sum terms, v, values => do
      let termValues ← evaluateEach ops terms v values
      pure (termValues.foldl (fun acc tv => List.zipWith ops.add acc tv)
        (List.replicate values.length ops.zero))
  | Product factors, v, values => do
      let factorValues ← evaluateEach ops factors v values
      pure (factorValues.foldl (fun acc fv => List.zipWith ops.mul acc fv)
        (List.replicate values.length ops.one))
  | Quotient a b, v, values => do
      pure (List.zipWith ops.div (← evaluate ops a v values) (← evaluate ops b v values))
  | Power a b, v, values => do
      pure (List.zipWith ops.pow (← evaluate ops a v values) (← evaluate ops b v values))
  | Exponential t, v, values => do
      pure ((← evaluate ops t v values).map (fun value => ops.pow ops.euler value))
  | Logarithm t, v, values => do
      pure ((← evaluate ops t v values).map ops.ln)
  | Variable id, v, values => if id = v then pure values else none
  | Integer n, _, values => pure (List.replicate values.length (ops.ofInt n))

/-- Evaluate every child of a `Sum`/`Product`, in order, failing if any
child fails (the `?` inside the source's accumulation loops). -/
def evaluateEach {I α : Type} [DecidableEq I] (ops : FloatOps α) :
    ExpressionList I → I → List α → Option (List (List α))
  | .nil, _, _ => pure []
  | .cons t rest, v, values => do
      pure ((← evaluate ops t v values) :: (← evaluateEach ops rest v values))

end

mutual

/-- `true` iff the tree contains a `Variable` whose identity differs from
the designated one — exactly the inputs on which the source's `_ => Err(())`
arm fires. -/
def hasForeignVariable {I : Type} [DecidableEq I] : Expression I → I → Bool
  | Sum terms, v => hasForeignVariableIn terms v
  | Product factors, v => hasForeignVariableIn factors v
  | Quotient a b, v => hasForeignVariable a v || hasForeignVariable b v
  | Power a b, v => hasForeignVariable a v || hasForeignVariable b v
  | Exponential t, v => hasForeignVariable t v
  | Logarithm t, v => hasForeignVariable t v
  | Variable id, v => if id = v then false else true
  | Integer _, _ => false

/-- Foreign-variable test over a child sequence. -/
def hasForeignVariableIn {I : Type} [DecidableEq I] : ExpressionList I → I → Bool
  | .nil, _ => false
  | .cons t rest, v => hasForeignVariable t v || hasForeignVariableIn rest v

end

end Expression

/-- An idealized `f64`: either a finite (exactly representable) value, an
infinity, or a not-a-number.  Signs of infinities are not tracked — the
spec's gap property only distinguishes finite values from NaN-or-infinite
ones.  Finite values carry exact rationals, which coincide with IEEE
doubles on the integral samples and exact divisions the claims use. -/
inductive FloatRepr where
  | fin : ℚ → FloatRepr
  | inf : FloatRepr
  | nan : FloatRepr
  deriving DecidableEq

namespace FloatRepr

/-- A not-a-number or infinite entry — the spec's representation of an
isolated undefined sample point. -/
def isNanOrInfinite : FloatRepr → Bool
  | fin _ => false
  | inf => true
  | nan => true

/-- IEEE-style addition on the idealized values. -/
def addF : FloatRepr → FloatRepr → FloatRepr
  | nan, _ => nan
  | _, nan => nan
  | inf, _ => inf
  | _, inf => inf
  | fin a, fin b => fin (a + b)

/-- IEEE-style multiplication (`0 * inf` is NaN). -/
def mulF : FloatRepr → FloatRepr → FloatRepr
  | nan, _ => nan
  | _, nan => nan
  | inf, inf => inf
  | inf, fin b => if b = 0 then nan else inf
  | fin a, inf => if a = 0 then nan else inf
  | fin a, fin b => fin (a * b)

/-- IEEE-style division: a nonzero finite value divided by zero is
infinite, `0 / 0` is NaN, and a finite value divided by an infinity is
zero — exactly the gap semantics the spec describes. -/
def divF : FloatRepr → FloatRepr → FloatRepr
  | nan, _ => nan
  | _, nan => nan
  | inf, inf => nan
  | inf, fin _ => inf
  | fin _, inf => fin 0
  | fin a, fin b => if b = 0 then (if a = 0 then nan else inf) else fin (a / b)

/-- `powf` on the idealized values.  The transcendental case has no exact
rational counterpart; it is mapped to NaN here.  No claim depends on it:
the generic theorems below hold for every `FloatOps` interpretation, and
the concrete division-gap example contains no `Power`/`Exponential` node. -/
def powF : FloatRepr → FloatRepr → FloatRepr
  | _, _ => nan

/-- `ln` on the idealized values, NaN for the same reason as `powF`. -/
def lnF : FloatRepr → FloatRepr
  | _ => nan

/-- The `FloatOps` instance used for concrete evaluation examples. -/
def floatOps : FloatOps FloatRepr where
  zero := fin 0
  one := fin 1
  euler := nan
  add := addF
  mul := mulF
  div := divF
  pow := powF
  ln := lnF
  ofInt := fun n => fin n

end FloatRepr


namespace Expression

/-- `true` iff the node is a `Sum`. -/
def isSum {I : Type} : Expression I → Bool
  | Sum _ => true
  | _ => false

/-- `true` iff the node is a `Product`. -/
def isProduct {I : Type} : Expression I → Bool
  | Product _ => true
  | _ => false

/-- No element of the child sequence is itself a `Sum`. -/
def noSumChildren {I : Type} : ExpressionList I → Bool
  | .nil => true
  | .cons t rest => !t.isSum && noSumChildren rest

/-- No element of the child sequence is itself a `Product`. -/
def noProductChildren {I : Type} : ExpressionList I → Bool
  | .nil => true
  | .cons t rest => !t.isProduct && noProductChildren rest

mutual

/-- The spec's full-flattening invariant: at every depth, no `Sum` node has
a `Sum` as a direct child, and no `Product` node has a `Product` as a
direct child. -/
def flattened {I : Type} : Expression I → Bool
  | Sum terms => noSumChildren terms && flattenedIn terms
  | Product factors => noProductChildren factors && flattenedIn factors
  | Quotient a b => flattened a && flattened b
  | Power a b => flattened a && flattened b
  | Exponential t => flattened t
  | Logarithm t => flattened t
  | Variable _ => true
  | Integer _ => true

/-- Full flattening of every element of a child sequence. -/
def flattenedIn {I : Type} : ExpressionList I → Bool
  | .nil => true
  | .cons t rest => flattened t && flattenedIn rest

end

mutual

/-- The tree contains no `Sum` and no `Product` node at all. -/
def aggregateFree {I : Type} : Expression I → Bool
  | Sum _ => false
  | Product _ => false
  | Quotient a b => aggregateFree a && aggregateFree b
  | Power a b => aggregateFree a && aggregateFree b
  | Exponential t => aggregateFree t
  | Logarithm t => aggregateFree t
  | Variable _ => true
  | Integer _ => true

/-- Every element of the child sequence is aggregate-free. -/
def aggregateFreeIn {I : Type} : ExpressionList I → Bool
  | .nil => true
  | .cons t rest => aggregateFree t && aggregateFreeIn rest

end

/-- Aggregate nodes are un-nested: the children of every `Sum`/`Product`
and the operand of every `Exponential`/`Logarithm` contain no further
`Sum`/`Product` nodes. -/
def unNested {I : Type} : Expression I → Bool
  | Sum terms => aggregateFreeIn terms
  | Product factors => aggregateFreeIn factors
  | Quotient a b => unNested a && unNested b
  | Power a b => unNested a && unNested b
  | Exponential t => aggregateFree t
  | Logarithm t => aggregateFree t
  | Variable _ => true
  | Integer _ => true

end Expression

/-!
The parser (src/syntax/src/lib.rs).  The grammar functions are transcribed
rule for rule.  The combinators they use come from the external `pups`
crate, which is not part of this repository's sources; they are modeled
here with the standard PEG semantics the spec's grammar description implies
(`choice` = ordered alternatives with backtracking, `token` = literal match,
`repeated` = greedy repetition, parsers consume a prefix and return the
unconsumed remainder, failing with no partial result).  The mutual grammar
recursion is made structural with a fuel parameter (recursion in the source
is bounded by the input because every grammar cycle passes through a
consumed parenthesis or function token); fuel exhaustion is parse failure.
-/

/-- A parser: consumes a prefix of the character stream and returns the
produced value with the unconsumed remainder, or fails. -/
def ParserFn (α : Type) : Type := List Char → Option (α × List Char)

/-- `token(s)`: match a literal string. -/
def tokenFn (s : List Char) : ParserFn Unit := fun input =>
  if s.isPrefixOf input then some ((), input.drop s.length) else none

/-- `whitespace()`: one or more whitespace characters. -/
def whitespaceFn : ParserFn Unit := fun input =>
  match input with
  | [] => none
  | c :: rest =>
      if c.isWhitespace then some ((), rest.dropWhile Char.isWhitespace) else none

/-- `p.or_not()`: always succeeds, consuming nothing on failure. -/
def orNot {α : Type} (p : ParserFn α) : ParserFn (Option α) := fun input =>
  match p input with
  | some (a, rest) => some (some a, rest)
  | none => some (none, input)

/-- `p.then(q)`: sequence, keeping both results. -/
def andThen {α β : Type} (p : ParserFn α) (q : ParserFn β) : ParserFn (α × β) :=
  fun input => do
    let (a, rest) ← p input
    let (b, rest') ← q rest
    pure ((a, b), rest')

/-- `p.map(f)`. -/
def mapFn {α β : Type} (p : ParserFn α) (f : α → β) : ParserFn β := fun input =>
  match p input with
  | some (a, rest) => some (f a, rest)
  | none => none

/-- `p.ignore_then(q)`: sequence, keeping the second result. -/
def ignoreThen {α β : Type} (p : ParserFn α) (q : ParserFn β) : ParserFn β :=
  mapFn (andThen p q) Prod.snd

/-- `p.then_ignore(q)`: sequence, keeping the first result. -/
def thenIgnore {α β : Type} (p : ParserFn α) (q : ParserFn β) : ParserFn α :=
  mapFn (andThen p q) Prod.fst

/-- `p.emit(b)`: replace the result with a constant. -/
def emitFn {α β : Type} (p : ParserFn α) (b : β) : ParserFn β :=
  mapFn p (fun _ => b)

/-- Ordered choice of two alternatives (`choice((p, q))`). -/
def orElseFn {α : Type} (p q : ParserFn α) : ParserFn α := fun input =>
  match p input with
  | some r => some r
  | none => q input

/-- `delimited(left, content, right)`: keep only the content. -/
def delimitedFn {α β γ : Type} (left : ParserFn α) (content : ParserFn β)
    (right : ParserFn γ) : ParserFn β :=
  ignoreThen left (thenIgnore content right)

/-- Greedy repetition worker: repeat `p` while it succeeds and consumes.
The fuel (always instantiated above the input length) makes the loop
structural; a parser that succeeds without consuming ends the loop. -/
def repeatedAux {α : Type} (p : ParserFn α) : Nat → List Char → List α × List Char
  | 0, input => ([], input)
  | fuel + 1, input =>
      match p input with
      | none => ([], input)
      | some (a, rest) =>
          if rest.length < input.length then
            let (items, rest') := repeatedAux p fuel rest
            (a :: items, rest')
          else ([a], rest)

/-- `repeated(p)`: zero or more, greedy. -/
def repeatedFn {α : Type} (p : ParserFn α) : ParserFn (List α) := fun input =>
  some (repeatedAux p (input.length + 1) input)

/-- `repeated_at_least(p, n)`: greedy repetition with a minimum count. -/
def repeatedAtLeast {α : Type} (p : ParserFn α) (n : Nat) : ParserFn (List α) :=
  fun input =>
    let (items, rest) := repeatedAux p (input.length + 1) input
    if n ≤ items.length then some (items, rest) else none

/-- `separated_at_least(p, sep, n)`: `p (sep p)*` with a minimum count. -/
def separatedAtLeast {α β : Type} (p : ParserFn α) (sep : ParserFn β) (n : Nat) :
    ParserFn (List α) := fun input =>
  match p input with
  | none => none
  | some (a, rest) =>
      let (items, rest') := repeatedAux (ignoreThen sep p) (rest.length + 1) rest
      if n ≤ (a :: items).length then some (a :: items, rest') else none

/-- `number()` followed by `BigInt::from_str`: a signed integer literal. -/
def numberFn : ParserFn Int := fun input =>
  let (negative, rest) :=
    match input with
    | '-' :: r => (true, r)
    | r => (false, r)
  let digits := rest.takeWhile Char.isDigit
  if digits.isEmpty then none
  else
    let value : Nat := digits.foldl (fun acc c => 10 * acc + (c.toNat - '0'.toNat)) 0
    some ((if negative then -(value : Int) else (value : Int)), rest.drop digits.length)

/-- `unicode_identifier()`: one or more letters. -/
def identifierFn : ParserFn String := fun input =>
  let letters := input.takeWhile Char.isAlpha
  if letters.isEmpty then none
  else some (String.mk letters, input.drop letters.length)

mutual

/-- `expression` (src/syntax/src/lib.rs): the additive level — a first
(possibly `-`-negated) quaternary term, then `+`/`-`-joined quaternary
terms, `-` encoded as multiplication by `Integer(-1)`; a single term is
returned unwrapped, two or more yield a `Sum`. -/
def expression : Nat → ParserFn (Expression String)
  | 0 => fun _ => none
  | n + 1 =>
      mapFn
        (andThen
          (orElseFn (quaternary n)
            (mapFn (ignoreThen (andThen (tokenFn ['-']) (orNot whitespaceFn)) (quaternary n))
              (fun integer =>
                Expression.Product (.cons integer (.cons (Expression.Integer (-1)) .nil)))))
          (mapFn
            (repeatedFn (ignoreThen (orNot whitespaceFn)
              (andThen
                (thenIgnore
                  (orElseFn (emitFn (tokenFn ['+']) true) (emitFn (tokenFn ['-']) false))
                  (orNot whitespaceFn))
                (quaternary n))))
            (fun vector => vector.map (fun pr =>
              if pr.1 then pr.2
              else Expression.Product (.cons (Expression.Integer (-1)) (.cons pr.2 .nil))))))
        (fun pr =>
          let terms := pr.1 :: pr.2
          if terms.length ≠ 1 then Expression.Sum (ExpressionList.ofList terms) else pr.1)

/-- `quaternary`: either a single `/`-division of two tertiary operands, or
a `*`-chain of at least two, or a bare tertiary. -/
def quaternary : Nat → ParserFn (Expression String)
  | 0 => fun _ => none
  | n + 1 =>
      orElseFn
        (mapFn
          (andThen
            (thenIgnore (tertiary n)
              (delimitedFn (orNot whitespaceFn) (tokenFn ['/']) (orNot whitespaceFn)))
            (tertiary n))
          (fun pr => Expression.Quotient pr.1 pr.2))
        (orElseFn
          (mapFn
            (separatedAtLeast (tertiary n)
              (delimitedFn (orNot whitespaceFn) (tokenFn ['*']) (orNot whitespaceFn)) 2)
            (fun factors => Expression.Product (ExpressionList.ofList factors)))
          (tertiary n))

/-- `tertiary`: two or more adjacent parenthesized groups form a `Product`
(implicit multiplication by juxtaposition); otherwise a secondary. -/
def tertiary : Nat → ParserFn (Expression String)
  | 0 => fun _ => none
  | n + 1 =>
      orElseFn
        (mapFn (repeatedAtLeast (parentheses n) 2)
          (fun factors => Expression.Product (ExpressionList.ofList factors)))
        (secondary n)

/-- `secondary`: an optional `base ^ exponent` with both operands primary. -/
def secondary : Nat → ParserFn (Expression String)
  | 0 => fun _ => none
  | n + 1 =>
      orElseFn
        (mapFn
          (andThen
            (thenIgnore (primary n)
              (delimitedFn (orNot whitespaceFn) (tokenFn ['^']) (orNot whitespaceFn)))
            (primary n))
          (fun pr => Expression.Power pr.1 pr.2))
        (primary n)

/-- `primary`: `exp(...)`, `ln(...)`, an integer literal, an identifier, or
a parenthesized expression. -/
def primary : Nat → ParserFn (Expression String)
  | 0 => fun _ => none
  | n + 1 =>
      orElseFn
        (mapFn
          (delimitedFn (andThen (tokenFn ['e', 'x', 'p', '(']) (orNot whitespaceFn))
            (expression n) (andThen (orNot whitespaceFn) (tokenFn [')'])))
          Expression.Exponential)
        (orElseFn
          (mapFn
            (delimitedFn (andThen (tokenFn ['l', 'n', '(']) (orNot whitespaceFn))
              (expression n) (andThen (orNot whitespaceFn) (tokenFn [')'])))
            Expression.Logarithm)
          (orElseFn (mapFn numberFn Expression.Integer)
            (orElseFn (mapFn identifierFn Expression.Variable)
              (parentheses n))))

/-- `parentheses`: an expression enclosed by parentheses. -/
def parentheses : Nat → ParserFn (Expression String)
  | 0 => fun _ => none
  | n + 1 =>
      delimitedFn (andThen (tokenFn ['(']) (orNot whitespaceFn)) (expression n)
        (andThen (orNot whitespaceFn) (tokenFn [')']))

end

section ReduceSanity

open Expression ExpressionList

-- constant folding: 2 + 3 becomes a Sum holding the single literal 5
example : reduce (Sum (ofList [Integer 2, Integer 3]) : Expression Nat)
    = some (Sum (ofList [Integer 5])) := by decide

-- a second pass collapses the single-child Sum
example : reduce (Sum (ofList [Integer 5]) : Expression Nat) = some (Integer 5) := by decide

-- zero factor annihilates a product
example : reduce (Product (ofList [Integer 4, Integer 0]) : Expression Nat)
    = some (Integer 0) := by decide

-- fraction reduction to lowest terms
example : reduce (Quotient (Integer 6) (Integer 9) : Expression Nat)
    = some (Quotient (Integer 2) (Integer 3)) := by decide

-- power folding for a positive machine-sized exponent
example : reduce (Power (Integer 2) (Integer 10) : Expression Nat)
    = some (Integer 1024) := by decide

-- the zero-exponent panic
example : reduce (Power (Integer 2) (Integer 0) : Expression Nat) = none := by decide

end ReduceSanity

section DifferentiateSanity

open Expression ExpressionList

-- d(x)/dx = 1, d(5)/dx = 0
example : differentiate (Variable 0 : Expression Nat) 0 = Integer 1 := by decide
example : differentiate (Integer 5 : Expression Nat) 0 = Integer 0 := by decide

-- product rule over three factors: one summand per factor, derivative first
example :
    differentiate (Product (ofList [Variable 0, Variable 1, Variable 2]) : Expression Nat) 0
      = Sum (ofList
          [ Product (ofList [Integer 1, Variable 1, Variable 2])
          , Product (ofList [Integer 0, Variable 0, Variable 2])
          , Product (ofList [Integer 0, Variable 0, Variable 1]) ]) := by decide

-- quotient rule as the source writes it: no Integer(-1) factor appears
example :
    differentiate (Quotient (Variable 0) (Variable 1) : Expression Nat) 0
      = Quotient
          (Sum (ofList
            [ Product (ofList [Integer 1, Variable 1])
            , Product (ofList [Variable 0, Integer 0]) ]))
          (Product (ofList [Variable 1, Variable 1])) := by decide

end DifferentiateSanity

section InternSanity

open Expression

example :
    Namespace.intern .new (Sum (.ofList [Variable "x", Variable "y", Variable "x"]))
      = (⟨["x", "y"], [("y", 1), ("x", 0)]⟩,
          Sum (.ofList [Variable 0, Variable 1, Variable 0])) := by decide

-- the Logarithm arm emits an Exponential node
example :
    Namespace.intern .new (Logarithm (Variable "x"))
      = (⟨["x"], [("x", 0)]⟩, Exponential (Variable 0)) := by decide

end InternSanity

section EvaluateSanity

open Expression FloatRepr

-- evaluating 1/x at samples [-1, 0, 1] succeeds, with an infinite middle entry
example :
    evaluate floatOps (Quotient (Integer 1) (Variable 0) : Expression Nat) 0
        [fin (-1), fin 0, fin 1]
      = some [fin (-1), inf, fin 1] := by
  simp [evaluate, floatOps, divF]

-- a foreign variable makes evaluation fail
example :
    evaluate floatOps (Sum (.ofList [Variable 0, Variable 1]) : Expression Nat) 0
        [fin 0, fin 1]
      = none := by decide

end EvaluateSanity

section ParserSanity

open Expression

example :
    expression 9 ['(', 'a', ')', '(', 'b', ')']
      = some (Product (.ofList [Variable "a", Variable "b"]), []) := by decide

example :
    expression 9 ['x', '+', 'y']
      = some (Sum (.ofList [Variable "x", Variable "y"]), []) := by decide

example :
    expression 9 ['x', '-', '2']
      = some (Sum (.ofList
          [Variable "x", Product (.ofList [Integer (-1), Integer 2])]), []) := by decide

example : expression 9 ['2', '*', 'x', '*', 'y']
      = some (Product (.ofList [Integer 2, Variable "x", Variable "y"]), []) := by decide

end ParserSanity

/-!
Unfolding lemmas for `reduce` (one per arm, phrased with explicit
`Option.bind` so that case analysis on the recursive results is direct).
-/

namespace Expression

theorem reduce_sum_def {I : Type} (ts : ExpressionList I) :
    reduce (Sum ts) = (sumFlatten ts).bind (fun l => some (sumCombine l)) := rfl

theorem reduce_product_def {I : Type} (ts : ExpressionList I) :
    reduce (Product ts) = (productFlatten ts).bind (fun l => some (productCombine l)) := rfl

theorem reduce_quotient_def {I : Type} (a b : Expression I) :
    reduce (Quotient a b)
      = (reduce a).bind fun da => (reduce b).bind fun db => combineQuotient da db := rfl

theorem reduce_power_def {I : Type} (a b : Expression I) :
    reduce (Power a b)
      = (reduce a).bind fun da => (reduce b).bind fun db => combinePower da db := rfl

/-- Dividing out the gcd leaves a coprime pair: the arithmetic heart of the
idempotence of fraction reduction. -/
theorem gcd_tdiv_gcd_eq_one {m n : Int} (hg : (Int.gcd m n : Int) ≠ 0) :
    Int.gcd (m.tdiv (Int.gcd m n)) (n.tdiv (Int.gcd m n)) = 1 := by
  have hpos : 0 < Int.gcd m n := Nat.pos_of_ne_zero (by exact_mod_cast hg)
  rw [Int.tdiv_eq_ediv_of_dvd Int.gcd_dvd_left,
    Int.tdiv_eq_ediv_of_dvd Int.gcd_dvd_right]
  exact Int.gcd_div_gcd_div_gcd hpos

/-- The output of `combineQuotient` on already-fixed operands is itself a
fixed point of `reduce`. -/
theorem combineQuotient_fix {I : Type} (da db r : Expression I)
    (fa : reduce da = some da) (fb : reduce db = some db)
    (h : combineQuotient da db = some r) : reduce r = some r := by
  cases da <;> cases db <;>
    first
    | -- every arm except `Integer, Integer`: the quotient is kept unchanged
      (simp only [combineQuotient] at h
       cases h
       rw [reduce_quotient_def, fa, fb]
       simp [combineQuotient])
    | -- the `Integer, Integer` arm: fraction reduction
      (rename_i m n
       simp only [combineQuotient] at h
       by_cases hg : (Int.gcd m n : Int) = 0
       · simp [hg] at h
       · rw [if_neg hg] at h
         by_cases hden : n.tdiv (Int.gcd m n) = 1
         · rw [if_pos hden] at h
           cases h
           rfl
         · rw [if_neg hden] at h
           cases h
           -- second pass: the pair is now coprime, so nothing changes
           rw [reduce_quotient_def]
           show combineQuotient (Integer (m.tdiv (Int.gcd m n)))
             (Integer (n.tdiv (Int.gcd m n))) = _
           simp only [combineQuotient, gcd_tdiv_gcd_eq_one hg]
           norm_num [Int.tdiv_one, hden])

/-- The output of `combinePower` on already-fixed operands is itself a
fixed point of `reduce`. -/
theorem combinePower_fix {I : Type} (da db r : Expression I)
    (fa : reduce da = some da) (fb : reduce db = some db)
    (h : combinePower da db = some r) : reduce r = some r := by
  cases da <;> cases db <;>
    first
    | -- every arm except `Integer, Integer`: the power is kept unchanged
      (simp only [combinePower] at h
       cases h
       rw [reduce_power_def, fa, fb]
       simp [combinePower])
    | -- the `Integer, Integer` arm
      (rename_i m n
       simp only [combinePower] at h
       by_cases hrange : n ≤ u32Max ∧ 0 ≤ n
       · rw [if_pos hrange] at h
         by_cases hzero : n = 0
         · simp [hzero] at h
         · rw [if_neg hzero] at h
           cases h
           rfl
       · rw [if_neg hrange] at h
         cases h
         -- second pass: the same out-of-range test fails again
         rw [reduce_power_def]
         show combinePower (Integer m) (Integer n) = _
         simp only [combinePower]
         rw [if_neg hrange])

/-- `reduce` is a closure on aggregate-free trees: once reduced, reducing
again changes nothing.  (Proved by structural recursion; `Sum`/`Product`
cases are vacuous.) -/
theorem reduce_fix_of_aggregateFree {I : Type} :
    ∀ (t r : Expression I), aggregateFree t = true → reduce t = some r → reduce r = some r
  | Sum _, _ => by simp [aggregateFree]
  | Product _, _ => by simp [aggregateFree]
  | Quotient a b, r => fun h hr => by
      rw [aggregateFree, Bool.and_eq_true] at h
      rw [reduce_quotient_def] at hr
      cases ha : reduce a with
      | none => rw [ha] at hr; exact absurd hr (by simp)
      | some da =>
        cases hb : reduce b with
        | none => rw [ha, hb] at hr; exact absurd hr (by simp)
        | some db =>
          rw [ha, hb] at hr
          simp only [Option.some_bind] at hr
          exact combineQuotient_fix da db r
            (reduce_fix_of_aggregateFree a da h.1 ha)
            (reduce_fix_of_aggregateFree b db h.2 hb) hr
  | Power a b, r => fun h hr => by
      rw [aggregateFree, Bool.and_eq_true] at h
      rw [reduce_power_def] at hr
      cases ha : reduce a with
      | none => rw [ha] at hr; exact absurd hr (by simp)
      | some da =>
        cases hb : reduce b with
        | none => rw [ha, hb] at hr; exact absurd hr (by simp)
        | some db =>
          rw [ha, hb] at hr
          simp only [Option.some_bind] at hr
          exact combinePower_fix da db r
            (reduce_fix_of_aggregateFree a da h.1 ha)
            (reduce_fix_of_aggregateFree b db h.2 hb) hr
  | Exponential t, r => fun _ hr => by
      rw [show reduce (Exponential t) = some (Exponential t) from rfl] at hr
      cases hr; rfl
  | Logarithm t, r => fun _ hr => by
      rw [show reduce (Logarithm t) = some (Logarithm t) from rfl] at hr
      cases hr; rfl
  | Variable id, r => fun _ hr => by
      rw [show reduce (Variable id) = some (Variable id) from rfl] at hr
      cases hr; rfl
  | Integer n, r => fun _ hr => by
      rw [show reduce (Integer n) = some (Integer n) from rfl] at hr
      cases hr; rfl

end Expression

namespace Expression

/-- An aggregate-free tree is not a `Sum`. -/
theorem isSum_eq_false_of_aggregateFree {I : Type} (t : Expression I)
    (h : aggregateFree t = true) : t.isSum = false := by
  cases t <;> simp_all [isSum, aggregateFree]

/-- An aggregate-free tree is not a `Product`. -/
theorem isProduct_eq_false_of_aggregateFree {I : Type} (t : Expression I)
    (h : aggregateFree t = true) : t.isProduct = false := by
  cases t <;> simp_all [isProduct, aggregateFree]

/-- Trees without any `Sum`/`Product` node are trivially flattened. -/
theorem flattened_of_aggregateFree {I : Type} :
    ∀ t : Expression I, aggregateFree t = true → flattened t = true
  | Sum _ => by simp [aggregateFree]
  | Product _ => by simp [aggregateFree]
  | Quotient a b => fun h => by
      rw [aggregateFree, Bool.and_eq_true] at h
      rw [flattened, Bool.and_eq_true]
      exact ⟨flattened_of_aggregateFree a h.1, flattened_of_aggregateFree b h.2⟩
  | Power a b => fun h => by
      rw [aggregateFree, Bool.and_eq_true] at h
      rw [flattened, Bool.and_eq_true]
      exact ⟨flattened_of_aggregateFree a h.1, flattened_of_aggregateFree b h.2⟩
  | Exponential t => fun h => by
      rw [aggregateFree] at h
      rw [flattened]
      exact flattened_of_aggregateFree t h
  | Logarithm t => fun h => by
      rw [aggregateFree] at h
      rw [flattened]
      exact flattened_of_aggregateFree t h
  | Variable _ => fun _ => rfl
  | Integer _ => fun _ => rfl

/-- `combineQuotient` sends aggregate-free operands to an aggregate-free
result. -/
theorem combineQuotient_aggregateFree {I : Type} (da db r : Expression I)
    (ha : aggregateFree da = true) (hb : aggregateFree db = true)
    (h : combineQuotient da db = some r) : aggregateFree r = true := by
  cases da <;> cases db <;>
    first
    | (simp only [combineQuotient] at h
       cases h
       simp_all [aggregateFree])
    | (rename_i m n
       simp only [combineQuotient] at h
       by_cases hg : (Int.gcd m n : Int) = 0
       · simp [hg] at h
       · rw [if_neg hg] at h
         by_cases hden : n.tdiv (Int.gcd m n) = 1
         · rw [if_pos hden] at h; cases h; rfl
         · rw [if_neg hden] at h; cases h; rfl)

/-- `combinePower` sends aggregate-free operands to an aggregate-free
result. -/
theorem combinePower_aggregateFree {I : Type} (da db r : Expression I)
    (ha : aggregateFree da = true) (hb : aggregateFree db = true)
    (h : combinePower da db = some r) : aggregateFree r = true := by
  cases da <;> cases db <;>
    first
    | (simp only [combinePower] at h
       cases h
       simp_all [aggregateFree])
    | (rename_i m n
       simp only [combinePower] at h
       by_cases hrange : n ≤ u32Max ∧ 0 ≤ n
       · rw [if_pos hrange] at h
         by_cases hzero : n = 0
         · simp [hzero] at h
         · rw [if_neg hzero] at h; cases h; rfl
       · rw [if_neg hrange] at h; cases h; rfl)

/-- `reduce` preserves aggregate-freeness. -/
theorem reduce_aggregateFree {I : Type} :
    ∀ (t r : Expression I), aggregateFree t = true → reduce t = some r →
      aggregateFree r = true
  | Sum _, _ => by simp [aggregateFree]
  | Product _, _ => by simp [aggregateFree]
  | Quotient a b, r => fun h hr => by
      rw [aggregateFree, Bool.and_eq_true] at h
      rw [reduce_quotient_def] at hr
      cases ha : reduce a with
      | none => rw [ha] at hr; exact absurd hr (by simp)
      | some da =>
        cases hb : reduce b with
        | none => rw [ha, hb] at hr; exact absurd hr (by simp)
        | some db =>
          rw [ha, hb] at hr
          simp only [Option.some_bind] at hr
          exact combineQuotient_aggregateFree da db r
            (reduce_aggregateFree a da h.1 ha) (reduce_aggregateFree b db h.2 hb) hr
  | Power a b, r => fun h hr => by
      rw [aggregateFree, Bool.and_eq_true] at h
      rw [reduce_power_def] at hr
      cases ha : reduce a with
      | none => rw [ha] at hr; exact absurd hr (by simp)
      | some da =>
        cases hb : reduce b with
        | none => rw [ha, hb] at hr; exact absurd hr (by simp)
        | some db =>
          rw [ha, hb] at hr
          simp only [Option.some_bind] at hr
          exact combinePower_aggregateFree da db r
            (reduce_aggregateFree a da h.1 ha) (reduce_aggregateFree b db h.2 hb) hr
  | Exponential t, r => fun h hr => by
      rw [show reduce (Exponential t) = some (Exponential t) from rfl] at hr
      cases hr; exact h
  | Logarithm t, r => fun h hr => by
      rw [show reduce (Logarithm t) = some (Logarithm t) from rfl] at hr
      cases hr; exact h
  | Variable id, r => fun h hr => by
      rw [show reduce (Variable id) = some (Variable id) from rfl] at hr
      cases hr; exact h
  | Integer n, r => fun h hr => by
      rw [show reduce (Integer n) = some (Integer n) from rfl] at hr
      cases hr; exact h

end Expression

namespace Expression

theorem aggregateFreeIn_append {I : Type} :
    ∀ xs ys : ExpressionList I, aggregateFreeIn xs = true → aggregateFreeIn ys = true →
      aggregateFreeIn (xs.append ys) = true
  | .nil, ys => fun _ hy => hy
  | .cons x xs, ys => fun hx hy => by
      rw [aggregateFreeIn, Bool.and_eq_true] at hx
      rw [ExpressionList.append, aggregateFreeIn, Bool.and_eq_true]
      exact ⟨hx.1, aggregateFreeIn_append xs ys hx.2 hy⟩

theorem noSumChildren_of_aggregateFreeIn {I : Type} :
    ∀ ts : ExpressionList I, aggregateFreeIn ts = true → noSumChildren ts = true
  | .nil => fun _ => rfl
  | .cons t rest => fun h => by
      rw [aggregateFreeIn, Bool.and_eq_true] at h
      rw [noSumChildren, Bool.and_eq_true]
      exact ⟨by rw [isSum_eq_false_of_aggregateFree t h.1]; rfl,
        noSumChildren_of_aggregateFreeIn rest h.2⟩

theorem noProductChildren_of_aggregateFreeIn {I : Type} :
    ∀ ts : ExpressionList I, aggregateFreeIn ts = true → noProductChildren ts = true
  | .nil => fun _ => rfl
  | .cons t rest => fun h => by
      rw [aggregateFreeIn, Bool.and_eq_true] at h
      rw [noProductChildren, Bool.and_eq_true]
      exact ⟨by rw [isProduct_eq_false_of_aggregateFree t h.1]; rfl,
        noProductChildren_of_aggregateFreeIn rest h.2⟩

theorem flattenedIn_of_aggregateFreeIn {I : Type} :
    ∀ ts : ExpressionList I, aggregateFreeIn ts = true → flattenedIn ts = true
  | .nil => fun _ => rfl
  | .cons t rest => fun h => by
      rw [aggregateFreeIn, Bool.and_eq_true] at h
      rw [flattenedIn, Bool.and_eq_true]
      exact ⟨flattened_of_aggregateFree t h.1, flattenedIn_of_aggregateFreeIn rest h.2⟩

theorem aggregateFreeIn_sumAccumulate {I : Type} :
    ∀ ts : ExpressionList I, aggregateFreeIn ts = true →
      aggregateFreeIn (sumAccumulate ts).2 = true
  | .nil => fun _ => rfl
  | .cons t rest => fun h => by
      rw [aggregateFreeIn, Bool.and_eq_true] at h
      have ih := aggregateFreeIn_sumAccumulate rest h.2
      rcases hsa : sumAccumulate rest with ⟨s, o⟩
      rw [hsa] at ih
      cases t <;>
        simp only [sumAccumulate, hsa] <;>
        first
          | exact ih
          | (rw [aggregateFreeIn, Bool.and_eq_true]; exact ⟨h.1, ih⟩)

theorem aggregateFreeIn_productAccumulate {I : Type} :
    ∀ ts : ExpressionList I, aggregateFreeIn ts = true →
      aggregateFreeIn (productAccumulate ts).2 = true
  | .nil => fun _ => rfl
  | .cons t rest => fun h => by
      rw [aggregateFreeIn, Bool.and_eq_true] at h
      have ih := aggregateFreeIn_productAccumulate rest h.2
      rcases hsa : productAccumulate rest with ⟨s, o⟩
      rw [hsa] at ih
      cases t <;>
        simp only [productAccumulate, hsa] <;>
        first
          | exact ih
          | (rw [aggregateFreeIn, Bool.and_eq_true]; exact ⟨h.1, ih⟩)

/-- Unfolding `sumFlatten` on a head that is not a `Sum`. -/
theorem sumFlatten_cons_not_sum {I : Type} (t : Expression I)
    (rest : ExpressionList I) (h : t.isSum = false) :
    sumFlatten (.cons t rest)
      = (reduce t).bind fun r => (sumFlatten rest).bind fun rest' =>
          some (.cons r rest') := by
  cases t <;> first | rfl | simp [isSum] at h

/-- Unfolding `productFlatten` on a head that is not a `Product`. -/
theorem productFlatten_cons_not_product {I : Type} (t : Expression I)
    (rest : ExpressionList I) (h : t.isProduct = false) :
    productFlatten (.cons t rest)
      = (reduce t).bind fun r => (productFlatten rest).bind fun rest' =>
          some (.cons r rest') := by
  cases t <;> first | rfl | simp [isProduct] at h

theorem sumFlatten_aggregateFree {I : Type} :
    ∀ (ts ts' : ExpressionList I), aggregateFreeIn ts = true →
      sumFlatten ts = some ts' → aggregateFreeIn ts' = true
  | .nil, ts' => fun _ hf => by
      rw [show sumFlatten (.nil : ExpressionList I) = some .nil from rfl] at hf
      cases hf; rfl
  | .cons t rest, ts' => fun h hf => by
      rw [aggregateFreeIn, Bool.and_eq_true] at h
      rw [sumFlatten_cons_not_sum t rest (isSum_eq_false_of_aggregateFree t h.1)] at hf
      cases hr : reduce t with
      | none => rw [hr] at hf; exact absurd hf (by simp)
      | some r =>
        cases hrest : sumFlatten rest with
        | none => rw [hr, hrest] at hf; exact absurd hf (by simp)
        | some rest' =>
          rw [hr, hrest] at hf
          simp only [Option.some_bind] at hf
          cases hf
          rw [aggregateFreeIn, Bool.and_eq_true]
          exact ⟨reduce_aggregateFree t r h.1 hr,
            sumFlatten_aggregateFree rest rest' h.2 hrest⟩

theorem productFlatten_aggregateFree {I : Type} :
    ∀ (ts ts' : ExpressionList I), aggregateFreeIn ts = true →
      productFlatten ts = some ts' → aggregateFreeIn ts' = true
  | .nil, ts' => fun _ hf => by
      rw [show productFlatten (.nil : ExpressionList I) = some .nil from rfl] at hf
      cases hf; rfl
  | .cons t rest, ts' => fun h hf => by
      rw [aggregateFreeIn, Bool.and_eq_true] at h
      rw [productFlatten_cons_not_product t rest
        (isProduct_eq_false_of_aggregateFree t h.1)] at hf
      cases hr : reduce t with
      | none => rw [hr] at hf; exact absurd hf (by simp)
      | some r =>
        cases hrest : productFlatten rest with
        | none => rw [hr, hrest] at hf; exact absurd hf (by simp)
        | some rest' =>
          rw [hr, hrest] at hf
          simp only [Option.some_bind] at hf
          cases hf
          rw [aggregateFreeIn, Bool.and_eq_true]
          exact ⟨reduce_aggregateFree t r h.1 hr,
            productFlatten_aggregateFree rest rest' h.2 hrest⟩

/-- A `Sum` assembled from an aggregate-free child list is flattened. -/
theorem flattened_sum_of_aggregateFreeIn {I : Type} (ts : ExpressionList I)
    (h : aggregateFreeIn ts = true) : flattened (Sum ts) = true := by
  rw [flattened, Bool.and_eq_true]
  exact ⟨noSumChildren_of_aggregateFreeIn ts h, flattenedIn_of_aggregateFreeIn ts h⟩

/-- A `Product` assembled from an aggregate-free child list is flattened. -/
theorem flattened_product_of_aggregateFreeIn {I : Type} (ts : ExpressionList I)
    (h : aggregateFreeIn ts = true) : flattened (Product ts) = true := by
  rw [flattened, Bool.and_eq_true]
  exact ⟨noProductChildren_of_aggregateFreeIn ts h, flattenedIn_of_aggregateFreeIn ts h⟩

theorem flattened_sumCombine {I : Type} (ts : ExpressionList I)
    (h : aggregateFreeIn ts = true) : flattened (sumCombine ts) = true := by
  match ts with
  | .nil => rfl
  | .cons t .nil =>
      rw [show sumCombine (ExpressionList.cons t .nil) = t from rfl]
      rw [aggregateFreeIn, Bool.and_eq_true] at h
      exact flattened_of_aggregateFree t h.1
  | .cons t1 (.cons t2 rest) =>
      have hacc := aggregateFreeIn_sumAccumulate _ h
      rcases hsa : sumAccumulate (ExpressionList.cons t1 (ExpressionList.cons t2 rest))
        with ⟨s, o⟩
      rw [hsa] at hacc
      by_cases hs : s = 0
      · cases o with
        | nil =>
            have hcs : sumCombine (ExpressionList.cons t1 (ExpressionList.cons t2 rest))
                = Integer 0 := by
              rw [sumCombine, hsa] <;> simp [hs]
            rw [hcs]; rfl
        | cons x xs =>
            have hcs : sumCombine (ExpressionList.cons t1 (ExpressionList.cons t2 rest))
                = Sum (ExpressionList.cons x xs) := by
              rw [sumCombine, hsa] <;> simp [hs]
            rw [hcs]
            exact flattened_sum_of_aggregateFreeIn _ hacc
      · have hcs : sumCombine (ExpressionList.cons t1 (ExpressionList.cons t2 rest))
            = Sum (o.append (.cons (Integer s) .nil)) := by
          rw [sumCombine, hsa] <;> simp [hs]
        rw [hcs]
        exact flattened_sum_of_aggregateFreeIn _
          (aggregateFreeIn_append _ _ hacc (by rfl))

theorem flattened_productCombine {I : Type} (ts : ExpressionList I)
    (h : aggregateFreeIn ts = true) : flattened (productCombine ts) = true := by
  match ts with
  | .nil => rfl
  | .cons t .nil =>
      rw [show productCombine (ExpressionList.cons t .nil) = t from rfl]
      rw [aggregateFreeIn, Bool.and_eq_true] at h
      exact flattened_of_aggregateFree t h.1
  | .cons t1 (.cons t2 rest) =>
      have hacc := aggregateFreeIn_productAccumulate _ h
      rcases hsa : productAccumulate (ExpressionList.cons t1 (ExpressionList.cons t2 rest))
        with ⟨p, o⟩
      rw [hsa] at hacc
      have hcp : productCombine (ExpressionList.cons t1 (ExpressionList.cons t2 rest))
          = if p = 0 then Integer 0
            else if p ≠ 1 then Product (o.append (.cons (Integer p) .nil))
            else Product o := by
        rw [productCombine, hsa] <;> simp
      rw [hcp]
      by_cases hp : p = 0
      · rw [if_pos hp]; rfl
      · rw [if_neg hp]
        by_cases hone : p ≠ 1
        · rw [if_pos hone]
          exact flattened_product_of_aggregateFreeIn _
            (aggregateFreeIn_append _ _ hacc (by rfl))
        · rw [if_neg hone]
          exact flattened_product_of_aggregateFreeIn _ hacc

end Expression

namespace Expression

/-- `combineQuotient` on flattened operands yields a flattened result. -/
theorem combineQuotient_flattened {I : Type} (da db r : Expression I)
    (ha : flattened da = true) (hb : flattened db = true)
    (h : combineQuotient da db = some r) : flattened r = true := by
  cases da <;> cases db <;>
    first
    | (simp only [combineQuotient] at h
       cases h
       rw [flattened, Bool.and_eq_true]
       exact ⟨ha, hb⟩)
    | (rename_i m n
       simp only [combineQuotient] at h
       by_cases hg : (Int.gcd m n : Int) = 0
       · simp [hg] at h
       · rw [if_neg hg] at h
         by_cases hden : n.tdiv (Int.gcd m n) = 1
         · rw [if_pos hden] at h; cases h; rfl
         · rw [if_neg hden] at h; cases h; rfl)

/-- `combinePower` on flattened operands yields a flattened result. -/
theorem combinePower_flattened {I : Type} (da db r : Expression I)
    (ha : flattened da = true) (hb : flattened db = true)
    (h : combinePower da db = some r) : flattened r = true := by
  cases da <;> cases db <;>
    first
    | (simp only [combinePower] at h
       cases h
       rw [flattened, Bool.and_eq_true]
       exact ⟨ha, hb⟩)
    | (rename_i m n
       simp only [combinePower] at h
       by_cases hrange : n ≤ u32Max ∧ 0 ≤ n
       · rw [if_pos hrange] at h
         by_cases hzero : n = 0
         · simp [hzero] at h
         · rw [if_neg hzero] at h; cases h; rfl
       · rw [if_neg hrange] at h; cases h; rfl)

/-- For un-nested inputs (no aggregate inside another aggregate or inside a
function operand), the output of `reduce` is fully flattened. -/
theorem reduce_flattened_of_unNested {I : Type} :
    ∀ (t r : Expression I), unNested t = true → reduce t = some r → flattened r = true
  | Sum ts, r => fun h hr => by
      rw [unNested] at h
      rw [reduce_sum_def] at hr
      cases hf : sumFlatten ts with
      | none => rw [hf] at hr; exact absurd hr (by simp)
      | some ts' =>
        rw [hf] at hr
        simp only [Option.some_bind] at hr
        cases hr
        exact flattened_sumCombine ts' (sumFlatten_aggregateFree ts ts' h hf)
  | Product ts, r => fun h hr => by
      rw [unNested] at h
      rw [reduce_product_def] at hr
      cases hf : productFlatten ts with
      | none => rw [hf] at hr; exact absurd hr (by simp)
      | some ts' =>
        rw [hf] at hr
        simp only [Option.some_bind] at hr
        cases hr
        exact flattened_productCombine ts' (productFlatten_aggregateFree ts ts' h hf)
  | Quotient a b, r => fun h hr => by
      rw [unNested, Bool.and_eq_true] at h
      rw [reduce_quotient_def] at hr
      cases ha : reduce a with
      | none => rw [ha] at hr; exact absurd hr (by simp)
      | some da =>
        cases hb : reduce b with
        | none => rw [ha, hb] at hr; exact absurd hr (by simp)
        | some db =>
          rw [ha, hb] at hr
          simp only [Option.some_bind] at hr
          exact combineQuotient_flattened da db r
            (reduce_flattened_of_unNested a da h.1 ha)
            (reduce_flattened_of_unNested b db h.2 hb) hr
  | Power a b, r => fun h hr => by
      rw [unNested, Bool.and_eq_true] at h
      rw [reduce_power_def] at hr
      cases ha : reduce a with
      | none => rw [ha] at hr; exact absurd hr (by simp)
      | some da =>
        cases hb : reduce b with
        | none => rw [ha, hb] at hr; exact absurd hr (by simp)
        | some db =>
          rw [ha, hb] at hr
          simp only [Option.some_bind] at hr
          exact combinePower_flattened da db r
            (reduce_flattened_of_unNested a da h.1 ha)
            (reduce_flattened_of_unNested b db h.2 hb) hr
  | Exponential t, r => fun h hr => by
      rw [unNested] at h
      rw [show reduce (Exponential t) = some (Exponential t) from rfl] at hr
      cases hr
      rw [flattened]
      exact flattened_of_aggregateFree t h
  | Logarithm t, r => fun h hr => by
      rw [unNested] at h
      rw [show reduce (Logarithm t) = some (Logarithm t) from rfl] at hr
      cases hr
      rw [flattened]
      exact flattened_of_aggregateFree t h
  | Variable id, r => fun _ hr => by
      rw [show reduce (Variable id) = some (Variable id) from rfl] at hr
      cases hr; rfl
  | Integer n, r => fun _ hr => by
      rw [show reduce (Integer n) = some (Integer n) from rfl] at hr
      cases hr; rfl

end Expression

namespace Expression

mutual

/-- `evaluate` fails exactly on trees containing a foreign variable — for
every interpretation of the floating-point operations (so in particular for
IEEE doubles): arithmetic never fails, only the `_ => Err(())` arm does. -/
theorem evaluate_eq_none_iff {I α : Type} [inst : DecidableEq I] (ops : FloatOps α) :
    ∀ (t : Expression I) (v : I) (values : List α),
      (evaluate ops t v values = none ↔ hasForeignVariable t v = true)
  | Sum ts, v, values => by
      cases h : evaluateEach ops ts v values with
      | none =>
          have hin := (evaluateEach_eq_none_iff ops ts v values).mp h
          simp [evaluate, h, hasForeignVariable, hin]
      | some tvs =>
          have hin : hasForeignVariableIn ts v = false := by
            have h' := evaluateEach_eq_none_iff ops ts v values
            rw [h] at h'
            simpa using h'
          simp [evaluate, h, hasForeignVariable, hin]
  | Product ts, v, values => by
      cases h : evaluateEach ops ts v values with
      | none =>
          have hin := (evaluateEach_eq_none_iff ops ts v values).mp h
          simp [evaluate, h, hasForeignVariable, hin]
      | some tvs =>
          have hin : hasForeignVariableIn ts v = false := by
            have h' := evaluateEach_eq_none_iff ops ts v values
            rw [h] at h'
            simpa using h'
          simp [evaluate, h, hasForeignVariable, hin]
  | Quotient a b, v, values => by
      have h1 := evaluate_eq_none_iff ops a v values
      have h2 := evaluate_eq_none_iff ops b v values
      cases ha : evaluate ops a v values with
      | none =>
          rw [ha] at h1
          simp [evaluate, ha, hasForeignVariable, h1.mp rfl]
      | some av =>
          rw [ha] at h1
          cases hb : evaluate ops b v values with
          | none =>
              rw [hb] at h2
              simp [evaluate, ha, hb, hasForeignVariable, h2.mp rfl]
          | some bv =>
              rw [hb] at h2
              simp [evaluate, ha, hb, hasForeignVariable]
              exact ⟨by simpa using h1, by simpa using h2⟩
  | Power a b, v, values => by
      have h1 := evaluate_eq_none_iff ops a v values
      have h2 := evaluate_eq_none_iff ops b v values
      cases ha : evaluate ops a v values with
      | none =>
          rw [ha] at h1
          simp [evaluate, ha, hasForeignVariable, h1.mp rfl]
      | some av =>
          rw [ha] at h1
          cases hb : evaluate ops b v values with
          | none =>
              rw [hb] at h2
              simp [evaluate, ha, hb, hasForeignVariable, h2.mp rfl]
          | some bv =>
              rw [hb] at h2
              simp [evaluate, ha, hb, hasForeignVariable]
              exact ⟨by simpa using h1, by simpa using h2⟩
  | Exponential t, v, values => by
      have h1 := evaluate_eq_none_iff ops t v values
      cases ht : evaluate ops t v values with
      | none => rw [ht] at h1; simp [evaluate, ht, hasForeignVariable, h1.mp rfl]
      | some tv =>
          rw [ht] at h1
          simp [evaluate, ht, hasForeignVariable]
          simpa using h1
  | Logarithm t, v, values => by
      have h1 := evaluate_eq_none_iff ops t v values
      cases ht : evaluate ops t v values with
      | none => rw [ht] at h1; simp [evaluate, ht, hasForeignVariable, h1.mp rfl]
      | some tv =>
          rw [ht] at h1
          simp [evaluate, ht, hasForeignVariable]
          simpa using h1
  | Variable id, v, values => by
      by_cases hid : id = v <;> simp [evaluate, hasForeignVariable, hid]
  | Integer n, v, values => by
      simp [evaluate, hasForeignVariable]

/-- Child-sequence version of `evaluate_eq_none_iff`. -/
theorem evaluateEach_eq_none_iff {I α : Type} [inst : DecidableEq I] (ops : FloatOps α) :
    ∀ (ts : ExpressionList I) (v : I) (values : List α),
      (evaluateEach ops ts v values = none ↔ hasForeignVariableIn ts v = true)
  | .nil, v, values => by simp [evaluateEach, hasForeignVariableIn]
  | .cons t rest, v, values => by
      cases h : evaluate ops t v values with
      | none =>
          have hh := (evaluate_eq_none_iff ops t v values).mp h
          simp [evaluateEach, h, hasForeignVariableIn, hh]
      | some tv =>
          have h1 : hasForeignVariable t v = false := by
            have h' := evaluate_eq_none_iff ops t v values
            rw [h] at h'
            simpa using h'
          cases h2 : evaluateEach ops rest v values with
          | none =>
              have hh := (evaluateEach_eq_none_iff ops rest v values).mp h2
              simp [evaluateEach, h, h2, hasForeignVariableIn, h1, hh]
          | some rest' =>
              have h3 : hasForeignVariableIn rest v = false := by
                have h' := evaluateEach_eq_none_iff ops rest v values
                rw [h2] at h'
                simpa using h'
              simp [evaluateEach, h, h2, hasForeignVariableIn, h1, h3]

end

end Expression

/-! Combinator computation lemmas used by the juxtaposition proof. -/

theorem orElseFn_eq_of_none {α : Type} (p q : ParserFn α) (input : List Char)
    (h : p input = none) : orElseFn p q input = q input := by
  simp [orElseFn, h]

theorem orElseFn_eq_of_some {α : Type} (p q : ParserFn α) (input : List Char)
    (r : α × List Char) (h : p input = some r) : orElseFn p q input = some r := by
  simp [orElseFn, h]

theorem mapFn_none {α β : Type} (p : ParserFn α) (f : α → β) (input : List Char)
    (h : p input = none) : mapFn p f input = none := by
  simp [mapFn, h]

theorem mapFn_some {α β : Type} (p : ParserFn α) (f : α → β) (input : List Char)
    (a : α) (rest : List Char) (h : p input = some (a, rest)) :
    mapFn p f input = some (f a, rest) := by
  simp [mapFn, h]

theorem andThen_none_left {α β : Type} (p : ParserFn α) (q : ParserFn β)
    (input : List Char) (h : p input = none) : andThen p q input = none := by
  simp [andThen, h]

theorem andThen_none_right {α β : Type} (p : ParserFn α) (q : ParserFn β)
    (input : List Char) (a : α) (rest : List Char)
    (h1 : p input = some (a, rest)) (h2 : q rest = none) : andThen p q input = none := by
  simp [andThen, h1, h2]

theorem andThen_some {α β : Type} (p : ParserFn α) (q : ParserFn β)
    (input : List Char) (a : α) (rest : List Char) (b : β) (rest' : List Char)
    (h1 : p input = some (a, rest)) (h2 : q rest = some (b, rest')) :
    andThen p q input = some ((a, b), rest') := by
  simp [andThen, h1, h2]

/-- Greedy repetition over a sequence of adjacent groups, each of which the
item parser consumes exactly and independently of what follows, with a tail
the item parser rejects: the repetition returns all groups in order and
stops at the tail. -/
theorem repeatedAux_groups {α : Type} (p : ParserFn α) :
    ∀ (gps : List (List Char × α)) (tail : List Char) (fuel : Nat),
      (∀ pr ∈ gps, pr.1 ≠ ([] : List Char)) →
      (∀ pr ∈ gps, ∀ rest, p (pr.1 ++ rest) = some (pr.2, rest)) →
      p tail = none →
      ((gps.map Prod.fst).flatten.length + tail.length) < fuel →
      repeatedAux p fuel ((gps.map Prod.fst).flatten ++ tail) = (gps.map Prod.snd, tail)
  | [], tail, fuel, _, _, htail, hfuel => by
      cases fuel with
      | zero => omega
      | succ f => simp [repeatedAux, htail]
  | (g, e) :: gps, tail, fuel, hne, hp, htail, hfuel => by
      have hg : g ≠ [] := hne (g, e) (List.mem_cons_self _ _)
      have hglen : 0 < g.length := List.length_pos.mpr hg
      have hjoin : (((g, e) :: gps).map Prod.fst).flatten = g ++ (gps.map Prod.fst).flatten := by
        simp
      cases fuel with
      | zero => omega
      | succ f =>
          have hpe := hp (g, e) (List.mem_cons_self _ _) ((gps.map Prod.fst).flatten ++ tail)
          have hfuel' : (gps.map Prod.fst).flatten.length + tail.length < f := by
            have h1 : (((g, e) :: gps).map Prod.fst).flatten.length
                = g.length + (gps.map Prod.fst).flatten.length := by simp [hjoin]
            omega
          have ih := repeatedAux_groups p gps tail f
            (fun pr h => hne pr (List.mem_cons_of_mem _ h))
            (fun pr h => hp pr (List.mem_cons_of_mem _ h)) htail hfuel'
          rw [hjoin, List.append_assoc]
          rw [repeatedAux, hpe]
          dsimp only
          rw [if_pos (by simp [List.length_append]; omega)]
          rw [ih]
          simp

/-- `parentheses` rejects the empty input at every fuel. -/
theorem parentheses_nil_eq_none : ∀ n : Nat, parentheses n [] = none
  | 0 => rfl
  | _ + 1 => rfl

/-- The `tertiary` rule parses two or more adjacent parenthesized groups
into a `Product` of the groups, in order. -/
theorem tertiary_groups (n : Nat) (gps : List (List Char × Expression String))
    (hlen : 2 ≤ gps.length)
    (hne : ∀ pr ∈ gps, pr.1 ≠ ([] : List Char))
    (hp : ∀ pr ∈ gps, ∀ rest, parentheses n (pr.1 ++ rest) = some (pr.2, rest)) :
    tertiary (n + 1) ((gps.map Prod.fst).flatten)
      = some (Expression.Product (ExpressionList.ofList (gps.map Prod.snd)), []) := by
  have hrep := repeatedAux_groups (parentheses n) gps []
    ((gps.map Prod.fst).flatten.length + 1) hne hp (parentheses_nil_eq_none n) (by simp)
  rw [List.append_nil] at hrep
  rw [tertiary]
  rw [orElseFn_eq_of_some]
  rw [mapFn_some (repeatedAtLeast (parentheses n) 2) _ _ (gps.map Prod.snd) []]
  simp only [repeatedAtLeast]
  rw [hrep]
  simp [hlen]

/-- The `quaternary` rule on a pure juxtaposition input: the division and
`*`-chain alternatives fail (no operator follows the groups), so the result
is `tertiary`'s `Product`. -/
theorem quaternary_groups (n : Nat) (gps : List (List Char × Expression String))
    (hlen : 2 ≤ gps.length)
    (hne : ∀ pr ∈ gps, pr.1 ≠ ([] : List Char))
    (hp : ∀ pr ∈ gps, ∀ rest, parentheses n (pr.1 ++ rest) = some (pr.2, rest)) :
    quaternary (n + 2) ((gps.map Prod.fst).flatten)
      = some (Expression.Product (ExpressionList.ofList (gps.map Prod.snd)), []) := by
  have ht := tertiary_groups n gps hlen hne hp
  have hdivider :
      delimitedFn (orNot whitespaceFn) (tokenFn ['/']) (orNot whitespaceFn) [] = none := rfl
  have hseparator :
      ignoreThen (delimitedFn (orNot whitespaceFn) (tokenFn ['*']) (orNot whitespaceFn))
        (tertiary (n + 1)) [] = none := rfl
  have hD : thenIgnore (tertiary (n + 1))
      (delimitedFn (orNot whitespaceFn) (tokenFn ['/']) (orNot whitespaceFn))
      ((gps.map Prod.fst).flatten) = none :=
    mapFn_none _ _ _ (andThen_none_right _ _ _ _ _ ht hdivider)
  have hM : separatedAtLeast (tertiary (n + 1))
      (delimitedFn (orNot whitespaceFn) (tokenFn ['*']) (orNot whitespaceFn)) 2
      ((gps.map Prod.fst).flatten) = none := by
    simp only [separatedAtLeast]
    rw [ht]
    dsimp only
    rw [show ([] : List Char).length + 1 = 1 from rfl]
    rw [repeatedAux, hseparator]
    simp
  rw [quaternary]
  rw [orElseFn_eq_of_none _ _ _ (mapFn_none _ _ _ (andThen_none_left _ _ _ hD))]
  rw [orElseFn_eq_of_none _ _ _ (mapFn_none _ _ _ hM)]
  exact ht

/-- C10: For every input consisting of two or more adjacent parenthesized
well-formed sub-expressions (each group `pr.1` is nonempty and is consumed
exactly by the `parentheses` rule, independently of what follows), the
top-level `expression` rule succeeds on their concatenation and yields a
`Product` whose factors are the parsed groups in order — implicit
multiplication by juxtaposition, with no `*` in the input. -/
theorem claim10_juxtaposition_parses_to_product (n : Nat)
    (gps : List (List Char × Expression String))
    (hlen : 2 ≤ gps.length)
    (hne : ∀ pr ∈ gps, pr.1 ≠ ([] : List Char))
    (hp : ∀ pr ∈ gps, ∀ rest, parentheses n (pr.1 ++ rest) = some (pr.2, rest)) :
    expression (n + 3) ((gps.map Prod.fst).flatten)
      = some (Expression.Product (ExpressionList.ofList (gps.map Prod.snd)), []) := by
  have hq := quaternary_groups n gps hlen hne hp
  have hA : orElseFn (quaternary (n + 2))
      (mapFn (ignoreThen (andThen (tokenFn ['-']) (orNot whitespaceFn)) (quaternary (n + 2)))
        (fun integer =>
          Expression.Product (.cons integer (.cons (Expression.Integer (-1)) .nil))))
      ((gps.map Prod.fst).flatten)
      = some (Expression.Product (ExpressionList.ofList (gps.map Prod.snd)), []) :=
    orElseFn_eq_of_some _ _ _ _ hq
  have hB : mapFn
      (repeatedFn (ignoreThen (orNot whitespaceFn)
        (andThen
          (thenIgnore
            (orElseFn (emitFn (tokenFn ['+']) true) (emitFn (tokenFn ['-']) false))
            (orNot whitespaceFn))
          (quaternary (n + 2)))))
      (fun vector => vector.map (fun pr =>
        if pr.1 then pr.2
        else Expression.Product (.cons (Expression.Integer (-1)) (.cons pr.2 .nil))))
      ([] : List Char) = some ([], []) := rfl
  rw [expression]
  rw [mapFn_some _ _ _ _ _ (andThen_some _ _ _ _ _ _ _ hA hB)]
  simp

set_option maxHeartbeats 4000000 in
/-- The group `"(a)"` is consumed exactly by `parentheses`, independently of
the following characters. -/
theorem parentheses_group_a :
    ∀ rest : List Char,
      parentheses 6 ('(' :: 'a' :: ')' :: rest) = some (Expression.Variable "a", rest) := by
  intro rest
  simp [parentheses, expression, quaternary, tertiary, secondary, primary,
    delimitedFn, ignoreThen, thenIgnore, andThen, mapFn, orElseFn, orNot, emitFn,
    repeatedFn, repeatedAtLeast, separatedAtLeast, numberFn, identifierFn,
    tokenFn, whitespaceFn, List.isPrefixOf, repeatedAux]

set_option maxHeartbeats 4000000 in
/-- The group `"(b)"` is consumed exactly by `parentheses`, independently of
the following characters. -/
theorem parentheses_group_b :
    ∀ rest : List Char,
      parentheses 6 ('(' :: 'b' :: ')' :: rest) = some (Expression.Variable "b", rest) := by
  intro rest
  simp [parentheses, expression, quaternary, tertiary, secondary, primary,
    delimitedFn, ignoreThen, thenIgnore, andThen, mapFn, orElseFn, orNot, emitFn,
    repeatedFn, repeatedAtLeast, separatedAtLeast, numberFn, identifierFn,
    tokenFn, whitespaceFn, List.isPrefixOf, repeatedAux]

/-- Witness for C10: `"(a)(b)"` parses to `Product [a, b]`. -/
theorem claim10_witness :
    expression 9 ['(', 'a', ')', '(', 'b', ')']
      = some (Expression.Product
          (ExpressionList.ofList [Expression.Variable "a", Expression.Variable "b"]), []) :=
  claim10_juxtaposition_parses_to_product 6
    [(['(', 'a', ')'], Expression.Variable "a"), (['(', 'b', ')'], Expression.Variable "b")]
    (by decide)
    (by decide)
    (by
      intro pr hpr rest
      simp only [List.mem_cons, List.not_mem_nil, or_false] at hpr
      rcases hpr with h | h <;> subst h
      · exact parentheses_group_a rest
      · exact parentheses_group_b rest)

/-!
Claim theorems.
-/

section Claims

open Expression

/-- C1: the source's quotient rule contains no negation: at the input
`Quotient(Variable x, Variable x)` (differentiated with respect to `x`) it
produces `(d(num)·den + num·d(den)) / den²` — the second summand is
`Product(num, d(den))` with no `Integer(-1)` factor — and not the claimed
`(num'·den − num·den')/den²` shape with `negate(d(den))` expressed through
a literal `Integer(-1)`. -/
theorem claim1_quotient_rule_has_no_negation :
    differentiate (Quotient (Variable 0) (Variable 0) : Expression Nat) 0
      = Quotient
          (Sum (.ofList [Product (.ofList [Integer 1, Variable 0]),
            Product (.ofList [Variable 0, Integer 1])]))
          (Product (.ofList [Variable 0, Variable 0]))
    ∧ differentiate (Quotient (Variable 0) (Variable 0) : Expression Nat) 0
        ≠ Quotient
            (Sum (.ofList [Product (.ofList [Integer 1, Variable 0]),
              Product (.ofList [Variable 0, Product (.ofList [Integer (-1), Integer 1])])]))
            (Product (.ofList [Variable 0, Variable 0])) := by decide

/-- C2: `reduce` is not total — on `Power(Integer(2), Integer(0))`, a
well-formed tree whose base and exponent are literal integers with a
non-negative exponent, the source indexes the empty `to_u32_digits` vector
of `BigInt::ZERO` and panics (modeled as `none`). -/
theorem claim2_reduce_panics_on_power_zero_exponent :
    reduce (Power (Integer 2) (Integer 0) : Expression Nat) = none := by decide

/-- C3 counterexample: normalization is not idempotent.  `reduce` turns
`Sum[2, 3]` into the single-child `Sum[5]` (the literal is pushed into a
still-wrapped `Sum`), and a second `reduce` collapses that to `Integer 5`,
so `reduce ∘ reduce ≠ reduce` at this input. -/
theorem claim3_counterexample :
    (reduce (Sum (.ofList [Integer 2, Integer 3]) : Expression Nat)).bind reduce
      ≠ reduce (Sum (.ofList [Integer 2, Integer 3]) : Expression Nat) := by decide

/-- C3 (amended): `reduce` is idempotent on trees containing no `Sum` and
no `Product` node: if such a tree reduces to `r`, reducing `r` returns it
unchanged.  For general trees idempotence fails (see the counterexample):
single-child collapsing and one-level flattening leave work for a second
pass. -/
theorem claim3_reduce_idempotent_on_aggregate_free {I : Type}
    (t r : Expression I) (h : aggregateFree t = true) (hr : reduce t = some r) :
    reduce r = some r :=
  reduce_fix_of_aggregateFree t r h hr

/-- Witness for C3: reducing `6/9` yields `2/3`, which reduces to itself. -/
theorem claim3_witness :
    reduce (Quotient (Integer 2) (Integer 3) : Expression Nat)
      = some (Quotient (Integer 2) (Integer 3)) :=
  claim3_reduce_idempotent_on_aggregate_free
    (Quotient (Integer 6) (Integer 9)) _ (by decide) (by decide)

/-- C4 counterexample: the output of `reduce` is not fully flattened.
Flattening inlines `Sum`-children one level only and does not re-flatten,
so `Sum[a, Sum[b, Sum[c, d]]]` reduces to `Sum[a, b, Sum[c, d]]`, whose
`Sum` directly contains a `Sum`. -/
theorem claim4_counterexample :
    reduce (Sum (.ofList [Variable 0,
        Sum (.ofList [Variable 1, Sum (.ofList [Variable 2, Variable 3])])]) : Expression Nat)
      = some (Sum (.ofList [Variable 0, Variable 1,
          Sum (.ofList [Variable 2, Variable 3])]))
    ∧ flattened (Sum (.ofList [Variable 0, Variable 1,
        Sum (.ofList [Variable 2, Variable 3])]) : Expression Nat) = false := by decide

/-- C4 (amended): the output of `reduce` is fully flattened for inputs in
which aggregates are un-nested — no `Sum`/`Product` occurs anywhere below
a `Sum`/`Product` child or inside an `Exponential`/`Logarithm` operand.
For general inputs full flattening fails (see the counterexample). -/
theorem claim4_reduce_flattened_on_unnested {I : Type}
    (t r : Expression I) (h : unNested t = true) (hr : reduce t = some r) :
    flattened r = true :=
  reduce_flattened_of_unNested t r h hr

/-- Witness for C4: `Sum[x, 2, 3]` reduces to the flattened `Sum[x, 5]`. -/
theorem claim4_witness :
    flattened (Sum (.ofList [Variable 0, Integer 5]) : Expression Nat) = true :=
  claim4_reduce_flattened_on_unnested
    (Sum (.ofList [Variable 0, Integer 2, Integer 3])) _ (by decide) (by decide)

/-- C5: `reduce` of an empty `Product` returns `Integer(0)` — the
multiplicative identity claimed by the spec would be `Integer(1)`, but the
source's comment and code both produce `0`.  The single-child halves of the
claim do hold: one-child `Product`s and `Sum`s are unwrapped. -/
theorem claim5_empty_product_reduces_to_integer_zero :
    reduce (Product .nil : Expression Nat) = some (Integer 0)
    ∧ (Integer 0 : Expression Nat) ≠ Integer 1
    ∧ reduce (Product (.ofList [Variable 0]) : Expression Nat) = some (Variable 0)
    ∧ reduce (Sum (.ofList [Variable 0]) : Expression Nat) = some (Variable 0) := by decide

/-- C6: `Namespace::intern` is not a pure map over the `Id` type: its
`Logarithm` arm constructs an `Exponential` node, so interning
`Logarithm(Variable "x")` yields `Exponential(Variable 0)` — the node kind
changes. -/
theorem claim6_intern_maps_logarithm_to_exponential :
    Namespace.intern .new (Logarithm (Variable "x"))
      = (⟨["x"], [("x", 0)]⟩, Exponential (Variable 0))
    ∧ (Exponential (Variable 0) : Expression Nat) ≠ Logarithm (Variable 0) := by decide

/-- C7: `evaluate` fails exactly when the tree contains a `Variable` whose
identity differs from the designated one — for every interpretation of the
floating-point operations, so in particular for IEEE doubles — and never
for arithmetic domain issues: evaluating `Quotient(Integer(1), x)` at the
samples `[-1, 0, 1]` succeeds, with a NaN-or-infinite middle entry and
finite outer entries. -/
theorem claim7_evaluate_fails_iff_foreign_variable :
    (∀ (I α : Type) (inst : DecidableEq I) (ops : FloatOps α) (t : Expression I)
        (v : I) (values : List α),
      (evaluate ops t v values = none ↔ hasForeignVariable t v = true))
    ∧ evaluate FloatRepr.floatOps
        (Quotient (Integer 1) (Variable 0) : Expression Nat) 0
        [FloatRepr.fin (-1), FloatRepr.fin 0, FloatRepr.fin 1]
        = some [FloatRepr.fin (-1), FloatRepr.inf, FloatRepr.fin 1]
    ∧ FloatRepr.inf.isNanOrInfinite = true
    ∧ (FloatRepr.fin (-1)).isNanOrInfinite = false :=
  ⟨fun I α inst ops t v values => @evaluate_eq_none_iff I α inst ops t v values,
    by simp [evaluate, FloatRepr.floatOps, FloatRepr.divF], rfl, rfl⟩

/-- C8: `reduce`'s `Power` folding is correct only for exponents in
`[1, u32::MAX]`: a zero exponent (non-negative, machine-sized, claimed to
fold to `Integer(1)`) panics instead; positive machine-sized exponents fold
to the exact power, and negative or oversized exponents keep the `Power`
node with reduced operands. -/
theorem claim8_power_folding_panics_at_zero_exponent :
    reduce (Power (Integer 5) (Integer 0) : Expression Nat) = none
    ∧ reduce (Power (Integer 2) (Integer 10) : Expression Nat) = some (Integer 1024)
    ∧ reduce (Power (Integer 2) (Integer (-1)) : Expression Nat)
        = some (Power (Integer 2) (Integer (-1)))
    ∧ reduce (Power (Integer 2) (Integer 4294967296) : Expression Nat)
        = some (Power (Integer 2) (Integer 4294967296)) := by decide

/-- C9 counterexample: `reduce` does not recurse into `Exponential` or
`Logarithm` operands: `reduce(Sum[1, 2])` is `Sum[3]`, but
`reduce(Exponential(Sum[1, 2]))` is not `Exponential(Sum[3])` (and likewise
for `Logarithm`) — the operand is left untouched. -/
theorem claim9_counterexample :
    reduce (Sum (.ofList [Integer 1, Integer 2]) : Expression Nat)
      = some (Sum (.ofList [Integer 3]))
    ∧ reduce (Exponential (Sum (.ofList [Integer 1, Integer 2])) : Expression Nat)
        ≠ some (Exponential (Sum (.ofList [Integer 3])))
    ∧ reduce (Logarithm (Sum (.ofList [Integer 1, Integer 2])) : Expression Nat)
        ≠ some (Logarithm (Sum (.ofList [Integer 3]))) := by decide

/-- C9 (amended): `reduce` returns `Exponential` and `Logarithm` nodes
unchanged — it hits the `other => other` arm and does not recurse into the
operand. -/
theorem claim9_reduce_returns_exponential_logarithm_unchanged {I : Type} :
    ∀ t : Expression I,
      reduce (Exponential t) = some (Exponential t)
      ∧ reduce (Logarithm t) = some (Logarithm t) :=
  fun _ => ⟨rfl, rfl⟩

end Claims
